import Mathlib

/-!
Verification of the URL-rewriting development server `dev-server.py` of the
Lemmeric repository.  The rewrite chain of
`LemmericHTTPRequestHandler.do_GET`, the CORS header augmentation of
`end_headers` and the port parsing of `main` are embedded as executable Lean
functions over `List Char`, and the specification claims are settled as
theorems about those functions.
-/

namespace DevServer

/-! ### Basic string material

The literal patterns and destinations of the nine rewrite rules, as they
appear in `dev-server.py`. -/

def comLit : List Char := "/communities".data
def comDest : List Char := "/communities.html".data
def postPre : List Char := "/post/".data
def uPre : List Char := "/u/".data
def cPre : List Char := "/c/".data
def searchLit : List Char := "/search".data
def searchDest : List Char := "/search.html".data
def createPostLit : List Char := "/create-post".data
def createPostDest : List Char := "/create_post.html".data
def createCommunityLit : List Char := "/create-community".data
def createCommunityDest : List Char := "/create-community.html".data
def inboxLit : List Char := "/inbox".data
def inboxDest : List Char := "/inbox.html".data
def settingsLit : List Char := "/settings".data
def settingsDest : List Char := "/settings.html".data

/-- The character class `[^/?]` used by the `/u/` and `/c/` rules of
`dev-server.py`. -/
def segOk (ch : Char) : Bool := ch != '/' && ch != '?'

/-- Remove a single trailing `'/'` if present: the effect of the optional
`/?` at the end of every anchored pattern in `dev-server.py`. -/
def stripSlash (s : List Char) : List Char :=
  if s.getLast? = some '/' then s.dropLast else s

/-- Semantics of the anchored regexes `^<lit>/?$` of `dev-server.py`
(rules `/communities`, `/search`, `/create-post`, `/create-community`,
`/inbox`, `/settings`): the path is the literal, optionally followed by one
trailing slash. -/
abbrev slashOpt (lit path : List Char) : Prop :=
  path = lit ∨ path = lit ++ ['/']

/-- Semantics of the capturing anchored regexes `^<pre>(<cls>+)/?$` of
`dev-server.py` (`^/post/(\d+)/?$`, `^/u/([^/?]+)/?$`, `^/c/([^/?]+)/?$`):
returns the captured group when the path matches, `none` otherwise.  Faithful
to the regex whenever the class `ok` rejects `'/'`, which holds for `\d` and
`[^/?]`. -/
def capture (pre : List Char) (ok : Char → Bool) (path : List Char) :
    Option (List Char) :=
  if path.take pre.length = pre then
    if stripSlash (path.drop pre.length) ≠ [] ∧
        (stripSlash (path.drop pre.length)).all ok = true
    then some (stripSlash (path.drop pre.length)) else none
  else none

/-! ### Percent-encoding: model of `urllib.parse.quote`

`urllib.parse.quote` with its default `safe='/'` leaves ASCII letters,
digits, `_`, `.`, `-`, `~` and `/` unchanged and replaces every other
character by the uppercase-hex percent-encoding of its UTF-8 bytes. -/

def quoteSafe (ch : Char) : Bool :=
  ch.isAlphanum || ch == '_' || ch == '.' || ch == '-' || ch == '~' || ch == '/'

/-- Uppercase hexadecimal digit. -/
def hexDig (n : Nat) : Char :=
  if n < 10 then Char.ofNat (48 + n) else Char.ofNat (65 + (n - 10))

/-- The UTF-8 bytes of a character, as natural numbers. -/
def utf8Bytes (ch : Char) : List Nat :=
  let n := ch.toNat
  if n < 0x80 then [n]
  else if n < 0x800 then
    [0xC0 ||| (n >>> 6), 0x80 ||| (n &&& 0x3F)]
  else if n < 0x10000 then
    [0xE0 ||| (n >>> 12), 0x80 ||| ((n >>> 6) &&& 0x3F), 0x80 ||| (n &&& 0x3F)]
  else
    [0xF0 ||| (n >>> 18), 0x80 ||| ((n >>> 12) &&& 0x3F),
     0x80 ||| ((n >>> 6) &&& 0x3F), 0x80 ||| (n &&& 0x3F)]

def quoteChar (ch : Char) : List Char :=
  if quoteSafe ch then [ch]
  else (utf8Bytes ch).foldr (fun b acc => '%' :: hexDig (b / 16) :: hexDig (b % 16) :: acc) []

/-- Model of `urllib.parse.quote` (default `safe='/'`), used by the `/u/`
and `/c/` rules of `dev-server.py`. -/
def quote : List Char → List Char
  | [] => []
  | ch :: rest => quoteChar ch ++ quote rest

/-! ### The rewrite chain of `do_GET` -/

/-- Destination of the non-capturing rules: `f"{dest}?{query}"` when the
query is non-empty, `dest` alone otherwise. -/
def simpleDest (dest query : List Char) : List Char :=
  if query = [] then dest else dest ++ '?' :: query

/-- The `new_query` construction of the capturing rules: the derived
parameter, followed by `&` and the original query when the latter is
non-empty. -/
def mergeDerived (derived query : List Char) : List Char :=
  if query = [] then derived else derived ++ '&' :: query

/-- Outcome of the rewrite stage of `do_GET`: either `self.path` is
reassigned to a new string, or the request falls through unchanged. -/
inductive RewriteResult where
  | rewritten : List Char → RewriteResult
  | passthrough : RewriteResult
deriving DecidableEq

/-- The rewrite chain of `LemmericHTTPRequestHandler.do_GET`
(dev-server.py, lines 25–104), as a function of the parsed path and query:
the nine pretty-URL rules and the root rule are tried in source order,
first match wins, otherwise the request passes through unchanged. -/
def doGET (path query : List Char) : RewriteResult :=
  if slashOpt comLit path then
    .rewritten (simpleDest comDest query)
  else match capture postPre Char.isDigit path with
  | some d => .rewritten (("/post.html?".data) ++ mergeDerived (("id=".data) ++ d) query)
  | none =>
  match capture uPre segOk path with
  | some s => .rewritten (("/user.html?".data) ++ mergeDerived (("username=".data) ++ quote s) query)
  | none =>
  match capture cPre segOk path with
  | some s => .rewritten (("/community.html?".data) ++ mergeDerived (("name=".data) ++ quote s) query)
  | none =>
  if slashOpt searchLit path then
    .rewritten (simpleDest searchDest query)
  else if slashOpt createPostLit path then
    .rewritten (simpleDest createPostDest query)
  else if slashOpt createCommunityLit path then
    .rewritten (simpleDest createCommunityDest query)
  else if slashOpt inboxLit path then
    .rewritten (simpleDest inboxDest query)
  else if slashOpt settingsLit path then
    .rewritten (simpleDest settingsDest query)
  else if path = ['/'] then
    .rewritten ("/index.html".data)
  else
    .passthrough

/-- The ten rewrite rules of `do_GET`, in source order: the nine pretty-URL
rules followed by the root rule. -/
inductive Rule where
  | communities
  | post
  | u
  | c
  | search
  | createPost
  | createCommunity
  | inbox
  | settings
  | root
deriving DecidableEq, Fintype

/-- The matching condition of each rule of `do_GET`, exactly as tested by
the corresponding `re.match` (or `path == '/'` for the root rule). -/
def ruleMatches (r : Rule) (path : List Char) : Prop :=
  match r with
  | .communities => slashOpt comLit path
  | .post => (capture postPre Char.isDigit path).isSome = true
  | .u => (capture uPre segOk path).isSome = true
  | .c => (capture cPre segOk path).isSome = true
  | .search => slashOpt searchLit path
  | .createPost => slashOpt createPostLit path
  | .createCommunity => slashOpt createCommunityLit path
  | .inbox => slashOpt inboxLit path
  | .settings => slashOpt settingsLit path
  | .root => path = ['/']

instance (r : Rule) (path : List Char) : Decidable (ruleMatches r path) :=
  match r with
  | .communities => inferInstanceAs (Decidable (slashOpt comLit path))
  | .post => inferInstanceAs (Decidable ((capture postPre Char.isDigit path).isSome = true))
  | .u => inferInstanceAs (Decidable ((capture uPre segOk path).isSome = true))
  | .c => inferInstanceAs (Decidable ((capture cPre segOk path).isSome = true))
  | .search => inferInstanceAs (Decidable (slashOpt searchLit path))
  | .createPost => inferInstanceAs (Decidable (slashOpt createPostLit path))
  | .createCommunity => inferInstanceAs (Decidable (slashOpt createCommunityLit path))
  | .inbox => inferInstanceAs (Decidable (slashOpt inboxLit path))
  | .settings => inferInstanceAs (Decidable (slashOpt settingsLit path))
  | .root => inferInstanceAs (Decidable (path = ['/']))

/-- The first rule of `do_GET` whose pattern matches the path, if any,
following the source order of the `if`/`elif` chain. -/
def firstMatching (path : List Char) : Option Rule :=
  if slashOpt comLit path then some .communities
  else match capture postPre Char.isDigit path with
  | some _ => some .post
  | none =>
  match capture uPre segOk path with
  | some _ => some .u
  | none =>
  match capture cPre segOk path with
  | some _ => some .c
  | none =>
  if slashOpt searchLit path then some .search
  else if slashOpt createPostLit path then some .createPost
  else if slashOpt createCommunityLit path then some .createCommunity
  else if slashOpt inboxLit path then some .inbox
  else if slashOpt settingsLit path then some .settings
  else if path = ['/'] then some .root
  else none

/-- The destination a given rule of `do_GET` produces (assuming its pattern
matches; for a capturing rule whose pattern does not match, the value is the
unreachable `passthrough`). -/
def ruleOutput (r : Rule) (path query : List Char) : RewriteResult :=
  match r with
  | .communities => .rewritten (simpleDest comDest query)
  | .post =>
    match capture postPre Char.isDigit path with
    | some d => .rewritten (("/post.html?".data) ++ mergeDerived (("id=".data) ++ d) query)
    | none => .passthrough
  | .u =>
    match capture uPre segOk path with
    | some s => .rewritten (("/user.html?".data) ++ mergeDerived (("username=".data) ++ quote s) query)
    | none => .passthrough
  | .c =>
    match capture cPre segOk path with
    | some s => .rewritten (("/community.html?".data) ++ mergeDerived (("name=".data) ++ quote s) query)
    | none => .passthrough
  | .search => .rewritten (simpleDest searchDest query)
  | .createPost => .rewritten (simpleDest createPostDest query)
  | .createCommunity => .rewritten (simpleDest createCommunityDest query)
  | .inbox => .rewritten (simpleDest inboxDest query)
  | .settings => .rewritten (simpleDest settingsDest query)
  | .root => .rewritten ("/index.html".data)

/-- Path/query extraction of `urllib.parse.urlparse` restricted to
fragment-free URLs: everything before the first `'?'` is the path,
everything after it the query. -/
def splitQ : List Char → List Char × List Char
  | [] => ([], [])
  | ch :: rest =>
    if ch = '?' then ([], rest)
    else
      let pq := splitQ rest
      (ch :: pq.1, pq.2)

/-! ### CLI port parsing (`main`, dev-server.py lines 117–122) -/

/-- ASCII whitespace stripped by the Python `int(str)` conversion. -/
def pyWS (ch : Char) : Bool :=
  ch == ' ' || ch == '\t' || ch == '\n' || ch == '\x0b' || ch == '\x0c' || ch == '\r'

/-- Strip leading and trailing whitespace. -/
def stripWS (s : List Char) : List Char :=
  ((s.dropWhile pyWS).reverse.dropWhile pyWS).reverse

/-- Digit run with optional single underscores between digits, as accepted
by the Python `int` literal format (restricted to ASCII digits). -/
def digitsTail : List Char → Bool
  | [] => true
  | ['_'] => false
  | '_' :: ch :: rest => ch.isDigit && digitsTail (ch :: rest)
  | ch :: rest => ch.isDigit && digitsTail rest

def digitsRun : List Char → Bool
  | [] => false
  | ch :: rest => ch.isDigit && digitsTail rest

/-- Numeric value of a digit-and-underscore run. -/
def digitsVal (acc : Nat) : List Char → Nat
  | [] => acc
  | ch :: rest =>
    if ch = '_' then digitsVal acc rest
    else digitsVal (acc * 10 + (ch.toNat - 48)) rest

/-- Model of the Python `int(s)` conversion on a string (base 10, restricted to ASCII
digits and whitespace): optional surrounding whitespace, optional sign, then
a digit run with optional single underscores between digits; `none` models
the `ValueError` raised on any other input. -/
def pyIntParse (s : List Char) : Option Int :=
  match stripWS s with
  | '+' :: rest => if digitsRun rest then some (digitsVal 0 rest) else none
  | '-' :: rest => if digitsRun rest then some (-(digitsVal 0 rest : Int)) else none
  | rest => if digitsRun rest then some (digitsVal 0 rest) else none

/-- The port selection of `main` (dev-server.py lines 117–122), as a
function of `sys.argv`: returns the chosen port and whether the
invalid-port warning was printed.  `port = 8000` by default; when a first
argument exists it is parsed with `int`, and a `ValueError` leaves the
default in place after printing the warning. -/
def mainPort (argv : List (List Char)) : Int × Bool :=
  match argv with
  | _ :: a :: _ =>
    match pyIntParse a with
    | some n => (n, false)
    | none => (8000, true)
  | _ => (8000, false)

/-! ### CORS header augmentation (`end_headers`, dev-server.py lines 109–114) -/

/-- The three cross-origin headers added by the overridden `end_headers`. -/
def corsHeaders : List (List Char × List Char) :=
  [("Access-Control-Allow-Origin".data, "*".data),
   ("Access-Control-Allow-Methods".data, "GET, POST, OPTIONS".data),
   ("Access-Control-Allow-Headers".data, "*".data)]

/-- The overridden `end_headers`: given the headers already queued by the
file delegate for the response, it unconditionally appends the three CORS
headers before flushing. -/
def endHeaders (sent : List (List Char × List Char)) : List (List Char × List Char) :=
  sent ++ corsHeaders

/-! ## Lemmas -/

/-! ### `stripSlash` and `capture` -/

theorem stripSlash_concat (a : List Char) : stripSlash (a ++ ['/']) = a := by
  unfold stripSlash
  rw [if_pos (List.getLast?_concat a), List.dropLast_concat]

theorem stripSlash_id {a : List Char} (h : a.getLast? ≠ some '/') :
    stripSlash a = a := by
  unfold stripSlash
  exact if_neg h

theorem getLast_ne_slash {a : List Char} {ok : Char → Bool} (hok : ok '/' = false)
    (hall : a.all ok = true) : a.getLast? ≠ some '/' := by
  intro h
  have hm := List.mem_of_mem_getLast? (Option.mem_def.mpr h)
  have hv := List.all_eq_true.mp hall _ hm
  rw [hok] at hv
  exact Bool.false_ne_true hv

theorem stripSlash_cases (s : List Char) :
    s = stripSlash s ∨ s = stripSlash s ++ ['/'] := by
  unfold stripSlash
  by_cases h : s.getLast? = some '/'
  · rw [if_pos h]
    exact Or.inr (List.dropLast_append_getLast? '/' (Option.mem_def.mpr h)).symm
  · rw [if_neg h]
    exact Or.inl rfl

/-- The regex `^<pre>(<ok>+)/?$` matches the path with capture `seg` iff the
path is the prefix followed by a non-empty all-`ok` segment and at most one
trailing slash (valid whenever the class rejects `'/'`). -/
theorem capture_eq_some_iff {pre : List Char} {ok : Char → Bool}
    {path seg : List Char} (hok : ok '/' = false) :
    capture pre ok path = some seg ↔
      seg ≠ [] ∧ seg.all ok = true ∧
        (path = pre ++ seg ∨ path = pre ++ (seg ++ ['/'])) := by
  constructor
  · intro h
    unfold capture at h
    by_cases h1 : path.take pre.length = pre
    · rw [if_pos h1] at h
      by_cases h2 : stripSlash (path.drop pre.length) ≠ [] ∧
          (stripSlash (path.drop pre.length)).all ok = true
      · rw [if_pos h2] at h
        have hseg : stripSlash (path.drop pre.length) = seg := Option.some.inj h
        obtain ⟨hne, hall⟩ := h2
        rw [hseg] at hne hall
        refine ⟨hne, hall, ?_⟩
        have hpath : path = pre ++ path.drop pre.length := by
          conv_lhs => rw [← List.take_append_drop pre.length path]
          rw [h1]
        rcases stripSlash_cases (path.drop pre.length) with hc | hc
        · left; rw [hpath]; rw [hc, hseg]
        · right; rw [hpath]; rw [hc, hseg]
      · rw [if_neg h2] at h
        exact absurd h (by simp)
    · rw [if_neg h1] at h
      exact absurd h (by simp)
  · rintro ⟨hne, hall, hp | hp⟩
    · subst hp
      unfold capture
      rw [List.drop_left pre seg, stripSlash_id (getLast_ne_slash hok hall),
        if_pos (List.take_left pre seg), if_pos (And.intro hne hall)]
    · subst hp
      unfold capture
      rw [List.drop_left pre (seg ++ ['/']), stripSlash_concat seg,
        if_pos (List.take_left pre (seg ++ ['/'])), if_pos (And.intro hne hall)]

/-! ### Canonical forms: a match determines the slash-stripped path -/

theorem strip_of_slashOpt {lit path : List Char} (hl : lit.getLast? ≠ some '/')
    (h : slashOpt lit path) : stripSlash path = lit := by
  rcases h with h | h
  · rw [h]; exact stripSlash_id hl
  · rw [h]; exact stripSlash_concat lit

theorem strip_of_capture {pre : List Char} {ok : Char → Bool}
    {path seg : List Char} (hok : ok '/' = false)
    (h : capture pre ok path = some seg) :
    stripSlash path = pre ++ seg ∧ seg ≠ [] ∧ seg.all ok = true := by
  obtain ⟨hne, hall, hp⟩ := (capture_eq_some_iff hok).mp h
  refine ⟨?_, hne, hall⟩
  rcases hp with hp | hp
  · rw [hp]
    apply stripSlash_id
    rw [List.getLast?_append_of_ne_nil pre hne]
    exact getLast_ne_slash hok hall
  · rw [hp, ← List.append_assoc]
    exact stripSlash_concat (pre ++ seg)

/-! ### Pairwise incompatibility of the rule patterns -/

theorem slashOpt_slashOpt_incompat {a b path : List Char}
    (ha : a.getLast? ≠ some '/') (hb : b.getLast? ≠ some '/') (hne : a ≠ b)
    (h1 : slashOpt a path) (h2 : slashOpt b path) : False :=
  hne ((strip_of_slashOpt ha h1).symm.trans (strip_of_slashOpt hb h2))

theorem slashOpt_capture_incompat {lit pre : List Char} {ok : Char → Bool}
    {path seg : List Char} (hl : lit.getLast? ≠ some '/') (hok : ok '/' = false)
    (hne : lit.take pre.length ≠ pre) (h1 : slashOpt lit path)
    (h2 : capture pre ok path = some seg) : False := by
  have e1 := strip_of_slashOpt hl h1
  obtain ⟨e2, -, -⟩ := strip_of_capture hok h2
  rw [e1] at e2
  apply hne
  rw [e2, List.take_left pre seg]

theorem capture_capture_incompat {preA preB : List Char} {okA okB : Char → Bool}
    {path s t : List Char} (hokA : okA '/' = false) (hokB : okB '/' = false)
    (hlen : preA.length ≤ preB.length) (hne : preB.take preA.length ≠ preA)
    (h1 : capture preA okA path = some s) (h2 : capture preB okB path = some t) :
    False := by
  obtain ⟨e1, -, -⟩ := strip_of_capture hokA h1
  obtain ⟨e2, -, -⟩ := strip_of_capture hokB h2
  rw [e1] at e2
  have e3 := congrArg (List.take preA.length) e2
  rw [List.take_left preA s, List.take_append_of_le_length hlen] at e3
  exact hne e3.symm

theorem root_capture_incompat {pre : List Char} {ok : Char → Bool}
    {path seg : List Char} (hok : ok '/' = false) (hpre : pre ≠ [])
    (h1 : path = ['/']) (h2 : capture pre ok path = some seg) : False := by
  obtain ⟨e, -, -⟩ := strip_of_capture hok h2
  rw [h1] at e
  have e2 : ([] : List Char) = pre ++ seg := e
  exact hpre (List.append_eq_nil.mp e2.symm).1

/-! ### Negative forms used to walk the `if`/`elif` chain -/

theorem slashOpt_false_of_capture {lit pre : List Char} {ok : Char → Bool}
    {path seg : List Char} (hl : lit.getLast? ≠ some '/') (hok : ok '/' = false)
    (hne : lit.take pre.length ≠ pre) (h : capture pre ok path = some seg) :
    ¬ slashOpt lit path :=
  fun hs => slashOpt_capture_incompat hl hok hne hs h

theorem slashOpt_false_of_slashOpt {a b path : List Char}
    (ha : a.getLast? ≠ some '/') (hb : b.getLast? ≠ some '/') (hne : a ≠ b)
    (h : slashOpt a path) : ¬ slashOpt b path :=
  fun h2 => slashOpt_slashOpt_incompat ha hb hne h h2

theorem capture_none_of_slashOpt {lit pre : List Char} {ok : Char → Bool}
    {path : List Char} (hl : lit.getLast? ≠ some '/') (hok : ok '/' = false)
    (hne : lit.take pre.length ≠ pre) (h : slashOpt lit path) :
    capture pre ok path = none := by
  cases hc : capture pre ok path with
  | none => rfl
  | some s => exact (slashOpt_capture_incompat hl hok hne h hc).elim

theorem capture_none_of_capture {preA preB : List Char} {okA okB : Char → Bool}
    {path s : List Char} (hokA : okA '/' = false) (hokB : okB '/' = false)
    (hlen : preA.length ≤ preB.length) (hne : preB.take preA.length ≠ preA)
    (h : capture preA okA path = some s) : capture preB okB path = none := by
  cases hc : capture preB okB path with
  | none => rfl
  | some t => exact (capture_capture_incompat hokA hokB hlen hne h hc).elim

/-! ### Walking the `if`/`elif` chain -/

/-- A rule whose pattern matches is the rule the chain selects: together
with `first_matches` this is the mutual exclusivity of the rule table. -/
theorem matches_first {r : Rule} {path : List Char} (h : ruleMatches r path) :
    firstMatching path = some r := by
  cases r with
  | communities =>
    unfold firstMatching
    rw [if_pos (show slashOpt comLit path from h)]
  | post =>
    obtain ⟨d, hd⟩ := Option.isSome_iff_exists.mp h
    have h1 : ¬ slashOpt comLit path :=
      slashOpt_false_of_capture (by decide) (by decide) (by decide) hd
    unfold firstMatching
    rw [if_neg h1, hd]
  | u =>
    obtain ⟨s, hs⟩ := Option.isSome_iff_exists.mp h
    have h1 : ¬ slashOpt comLit path :=
      slashOpt_false_of_capture (by decide) (by decide) (by decide) hs
    have h2 : capture postPre Char.isDigit path = none :=
      capture_none_of_capture (by decide) (by decide) (by decide) (by decide) hs
    unfold firstMatching
    rw [if_neg h1, h2, hs]
  | c =>
    obtain ⟨s, hs⟩ := Option.isSome_iff_exists.mp h
    have h1 : ¬ slashOpt comLit path :=
      slashOpt_false_of_capture (by decide) (by decide) (by decide) hs
    have h2 : capture postPre Char.isDigit path = none :=
      capture_none_of_capture (by decide) (by decide) (by decide) (by decide) hs
    have h3 : capture uPre segOk path = none :=
      capture_none_of_capture (by decide) (by decide) (by decide) (by decide) hs
    unfold firstMatching
    rw [if_neg h1, h2, h3, hs]
  | search =>
    have hm : slashOpt searchLit path := h
    have h1 : ¬ slashOpt comLit path :=
      slashOpt_false_of_slashOpt (by decide) (by decide) (by decide) hm
    have h2 : capture postPre Char.isDigit path = none :=
      capture_none_of_slashOpt (by decide) (by decide) (by decide) hm
    have h3 : capture uPre segOk path = none :=
      capture_none_of_slashOpt (by decide) (by decide) (by decide) hm
    have h4 : capture cPre segOk path = none :=
      capture_none_of_slashOpt (by decide) (by decide) (by decide) hm
    unfold firstMatching
    rw [if_neg h1, h2, h3, h4, if_pos hm]
  | createPost =>
    have hm : slashOpt createPostLit path := h
    have h1 : ¬ slashOpt comLit path :=
      slashOpt_false_of_slashOpt (by decide) (by decide) (by decide) hm
    have h2 : capture postPre Char.isDigit path = none :=
      capture_none_of_slashOpt (by decide) (by decide) (by decide) hm
    have h3 : capture uPre segOk path = none :=
      capture_none_of_slashOpt (by decide) (by decide) (by decide) hm
    have h4 : capture cPre segOk path = none :=
      capture_none_of_slashOpt (by decide) (by decide) (by decide) hm
    have h5 : ¬ slashOpt searchLit path :=
      slashOpt_false_of_slashOpt (by decide) (by decide) (by decide) hm
    unfold firstMatching
    rw [if_neg h1, h2, h3, h4, if_neg h5, if_pos hm]
  | createCommunity =>
    have hm : slashOpt createCommunityLit path := h
    have h1 : ¬ slashOpt comLit path :=
      slashOpt_false_of_slashOpt (by decide) (by decide) (by decide) hm
    have h2 : capture postPre Char.isDigit path = none :=
      capture_none_of_slashOpt (by decide) (by decide) (by decide) hm
    have h3 : capture uPre segOk path = none :=
      capture_none_of_slashOpt (by decide) (by decide) (by decide) hm
    have h4 : capture cPre segOk path = none :=
      capture_none_of_slashOpt (by decide) (by decide) (by decide) hm
    have h5 : ¬ slashOpt searchLit path :=
      slashOpt_false_of_slashOpt (by decide) (by decide) (by decide) hm
    have h6 : ¬ slashOpt createPostLit path :=
      slashOpt_false_of_slashOpt (by decide) (by decide) (by decide) hm
    unfold firstMatching
    rw [if_neg h1, h2, h3, h4, if_neg h5, if_neg h6, if_pos hm]
  | inbox =>
    have hm : slashOpt inboxLit path := h
    have h1 : ¬ slashOpt comLit path :=
      slashOpt_false_of_slashOpt (by decide) (by decide) (by decide) hm
    have h2 : capture postPre Char.isDigit path = none :=
      capture_none_of_slashOpt (by decide) (by decide) (by decide) hm
    have h3 : capture uPre segOk path = none :=
      capture_none_of_slashOpt (by decide) (by decide) (by decide) hm
    have h4 : capture cPre segOk path = none :=
      capture_none_of_slashOpt (by decide) (by decide) (by decide) hm
    have h5 : ¬ slashOpt searchLit path :=
      slashOpt_false_of_slashOpt (by decide) (by decide) (by decide) hm
    have h6 : ¬ slashOpt createPostLit path :=
      slashOpt_false_of_slashOpt (by decide) (by decide) (by decide) hm
    have h7 : ¬ slashOpt createCommunityLit path :=
      slashOpt_false_of_slashOpt (by decide) (by decide) (by decide) hm
    unfold firstMatching
    rw [if_neg h1, h2, h3, h4, if_neg h5, if_neg h6, if_neg h7, if_pos hm]
  | settings =>
    have hm : slashOpt settingsLit path := h
    have h1 : ¬ slashOpt comLit path :=
      slashOpt_false_of_slashOpt (by decide) (by decide) (by decide) hm
    have h2 : capture postPre Char.isDigit path = none :=
      capture_none_of_slashOpt (by decide) (by decide) (by decide) hm
    have h3 : capture uPre segOk path = none :=
      capture_none_of_slashOpt (by decide) (by decide) (by decide) hm
    have h4 : capture cPre segOk path = none :=
      capture_none_of_slashOpt (by decide) (by decide) (by decide) hm
    have h5 : ¬ slashOpt searchLit path :=
      slashOpt_false_of_slashOpt (by decide) (by decide) (by decide) hm
    have h6 : ¬ slashOpt createPostLit path :=
      slashOpt_false_of_slashOpt (by decide) (by decide) (by decide) hm
    have h7 : ¬ slashOpt createCommunityLit path :=
      slashOpt_false_of_slashOpt (by decide) (by decide) (by decide) hm
    have h8 : ¬ slashOpt inboxLit path :=
      slashOpt_false_of_slashOpt (by decide) (by decide) (by decide) hm
    unfold firstMatching
    rw [if_neg h1, h2, h3, h4, if_neg h5, if_neg h6, if_neg h7, if_neg h8,
      if_pos hm]
  | root =>
    have hm : path = ['/'] := h
    subst hm
    decide

/-- Conversely, the rule the chain selects does match. -/
theorem first_matches {r : Rule} {path : List Char}
    (h : firstMatching path = some r) : ruleMatches r path := by
  unfold firstMatching at h
  by_cases h1 : slashOpt comLit path
  · rw [if_pos h1] at h
    cases Option.some.inj h
    exact h1
  · rw [if_neg h1] at h
    cases h2 : capture postPre Char.isDigit path with
    | some d =>
      rw [h2] at h
      cases Option.some.inj h
      show (capture postPre Char.isDigit path).isSome = true
      rw [h2]; rfl
    | none =>
      rw [h2] at h
      cases h3 : capture uPre segOk path with
      | some s =>
        rw [h3] at h
        cases Option.some.inj h
        show (capture uPre segOk path).isSome = true
        rw [h3]; rfl
      | none =>
        rw [h3] at h
        cases h4 : capture cPre segOk path with
        | some s =>
          rw [h4] at h
          cases Option.some.inj h
          show (capture cPre segOk path).isSome = true
          rw [h4]; rfl
        | none =>
          rw [h4] at h
          by_cases h5 : slashOpt searchLit path
          · rw [if_pos h5] at h
            cases Option.some.inj h
            exact h5
          · rw [if_neg h5] at h
            by_cases h6 : slashOpt createPostLit path
            · rw [if_pos h6] at h
              cases Option.some.inj h
              exact h6
            · rw [if_neg h6] at h
              by_cases h7 : slashOpt createCommunityLit path
              · rw [if_pos h7] at h
                cases Option.some.inj h
                exact h7
              · rw [if_neg h7] at h
                by_cases h8 : slashOpt inboxLit path
                · rw [if_pos h8] at h
                  cases Option.some.inj h
                  exact h8
                · rw [if_neg h8] at h
                  by_cases h9 : slashOpt settingsLit path
                  · rw [if_pos h9] at h
                    cases Option.some.inj h
                    exact h9
                  · rw [if_neg h9] at h
                    by_cases h10 : path = ['/']
                    · rw [if_pos h10] at h
                      cases Option.some.inj h
                      exact h10
                    · rw [if_neg h10] at h
                      simp at h

/-- Evaluation of `do_GET` as the first-match-wins application of the rule table. -/
theorem doGET_via_first (path query : List Char) :
    doGET path query =
      (firstMatching path).elim .passthrough (fun r => ruleOutput r path query) := by
  unfold doGET firstMatching
  by_cases h1 : slashOpt comLit path
  · rw [if_pos h1, if_pos h1]
    rfl
  · rw [if_neg h1, if_neg h1]
    cases h2 : capture postPre Char.isDigit path with
    | some d => simp [ruleOutput, h2, Option.elim]
    | none =>
      cases h3 : capture uPre segOk path with
      | some s => simp [ruleOutput, h3, Option.elim]
      | none =>
        cases h4 : capture cPre segOk path with
        | some s => simp [ruleOutput, h4, Option.elim]
        | none =>
          by_cases h5 : slashOpt searchLit path
          · rw [if_pos h5, if_pos h5]
            rfl
          · rw [if_neg h5, if_neg h5]
            by_cases h6 : slashOpt createPostLit path
            · rw [if_pos h6, if_pos h6]
              rfl
            · rw [if_neg h6, if_neg h6]
              by_cases h7 : slashOpt createCommunityLit path
              · rw [if_pos h7, if_pos h7]
                rfl
              · rw [if_neg h7, if_neg h7]
                by_cases h8 : slashOpt inboxLit path
                · rw [if_pos h8, if_pos h8]
                  rfl
                · rw [if_neg h8, if_neg h8]
                  by_cases h9 : slashOpt settingsLit path
                  · rw [if_pos h9, if_pos h9]
                    rfl
                  · rw [if_neg h9, if_neg h9]
                    by_cases h10 : path = ['/']
                    · rw [if_pos h10, if_pos h10]
                      rfl
                    · rw [if_neg h10, if_neg h10]
                      rfl

/-- First-match-wins evaluation of a matching rule. -/
theorem doGET_of_matches {r : Rule} {path query : List Char}
    (h : ruleMatches r path) : doGET path query = ruleOutput r path query := by
  rw [doGET_via_first path query, matches_first h]
  rfl

/-- At most one rule pattern matches any given path. -/
theorem matches_unique {r1 r2 : Rule} {path : List Char}
    (h1 : ruleMatches r1 path) (h2 : ruleMatches r2 path) : r1 = r2 :=
  Option.some.inj ((matches_first h1).symm.trans (matches_first h2))

theorem firstMatching_none {path : List Char}
    (h : ∀ r : Rule, ¬ ruleMatches r path) : firstMatching path = none := by
  cases hf : firstMatching path with
  | none => rfl
  | some r => exact absurd (first_matches hf) (h r)

theorem doGET_passthrough_of_none {path : List Char}
    (h : firstMatching path = none) (query : List Char) :
    doGET path query = .passthrough := by
  rw [doGET_via_first path query, h]
  rfl

/-! ### Output shapes -/

theorem derived_merge_eq (pre der N q : List Char) :
    pre ++ mergeDerived (der ++ N) q =
      (pre ++ der) ++ N ++ (if q = [] then [] else '&' :: q) := by
  by_cases hq : q = [] <;> simp [mergeDerived, hq, List.append_assoc]

theorem splitQ_concat {a : List Char} (b : List Char) (h : '?' ∉ a) :
    splitQ (a ++ '?' :: b) = (a, b) := by
  induction a with
  | nil => simp [splitQ]
  | cons x xs ih =>
    have hx : x ≠ '?' := fun e => h (e ▸ List.mem_cons_self x xs)
    have h' : '?' ∉ xs := fun hm => h (List.mem_cons_of_mem x hm)
    simp [splitQ, hx, ih h']

/-! ## Claims -/

/-- C1: for every non-empty digit sequence `N`, the path `/post/<N>`
(optionally with one trailing slash) rewrites to `/post.html?id=<N>`, with
`&<query>` appended when the original query is non-empty; a non-digit
suffix such as `/post/12a` matches no rule and passes through unchanged. -/
theorem claim_c1 (N q : List Char) (hne : N ≠ [])
    (hdig : N.all Char.isDigit = true) :
    doGET (("/post/".data) ++ N) q =
      .rewritten (("/post.html?id=".data) ++ N ++ (if q = [] then [] else '&' :: q)) ∧
    doGET (("/post/".data) ++ N ++ ['/']) q =
      .rewritten (("/post.html?id=".data) ++ N ++ (if q = [] then [] else '&' :: q)) ∧
    doGET ("/post/12a".data) q = .passthrough := by
  have hcap1 : capture postPre Char.isDigit (("/post/".data) ++ N) = some N :=
    (capture_eq_some_iff (by decide)).mpr ⟨hne, hdig, Or.inl rfl⟩
  have hcap2 : capture postPre Char.isDigit (("/post/".data) ++ N ++ ['/']) = some N :=
    (capture_eq_some_iff (by decide)).mpr
      ⟨hne, hdig, Or.inr (List.append_assoc postPre N ['/'])⟩
  have hm1 : ruleMatches .post (("/post/".data) ++ N) := by
    show (capture postPre Char.isDigit (("/post/".data) ++ N)).isSome = true
    rw [hcap1]; rfl
  have hm2 : ruleMatches .post (("/post/".data) ++ N ++ ['/']) := by
    show (capture postPre Char.isDigit (("/post/".data) ++ N ++ ['/'])).isSome = true
    rw [hcap2]; rfl
  refine ⟨?_, ?_, rfl⟩
  · rw [doGET_of_matches hm1]
    simp only [ruleOutput]
    rw [hcap1]
    exact congrArg RewriteResult.rewritten (derived_merge_eq ("/post.html?".data) ("id=".data) N q)
  · rw [doGET_of_matches hm2]
    simp only [ruleOutput]
    rw [hcap2]
    exact congrArg RewriteResult.rewritten (derived_merge_eq ("/post.html?".data) ("id=".data) N q)

theorem claim_c1_witness :
    (("123".data : List Char) ≠ [] ∧ ("123".data).all Char.isDigit = true) ∧
    doGET (("/post/".data) ++ ("123".data)) ("a=1".data) =
      .rewritten (("/post.html?id=".data) ++ ("123".data) ++
        (if ("a=1".data : List Char) = [] then [] else '&' :: ("a=1".data))) :=
  ⟨⟨by decide, by decide⟩, (claim_c1 _ _ (by decide) (by decide)).1⟩

/-- C2: for every non-empty `name` containing no `/` or `?`, the path
`/u/<name>` (optionally with one trailing slash) rewrites to
`/user.html?username=<quote name>` and `/c/<name>` to
`/community.html?name=<quote name>`, with `&<query>` appended when the
original query is non-empty; in particular `/u/jane doe` yields
`/user.html?username=jane%20doe`. -/
theorem claim_c2 (name q : List Char) (hne : name ≠ [])
    (hok : name.all segOk = true) :
    doGET (("/u/".data) ++ name) q =
      .rewritten (("/user.html?username=".data) ++ quote name ++
        (if q = [] then [] else '&' :: q)) ∧
    doGET (("/u/".data) ++ name ++ ['/']) q =
      .rewritten (("/user.html?username=".data) ++ quote name ++
        (if q = [] then [] else '&' :: q)) ∧
    doGET (("/c/".data) ++ name) q =
      .rewritten (("/community.html?name=".data) ++ quote name ++
        (if q = [] then [] else '&' :: q)) ∧
    doGET (("/c/".data) ++ name ++ ['/']) q =
      .rewritten (("/community.html?name=".data) ++ quote name ++
        (if q = [] then [] else '&' :: q)) ∧
    doGET ("/u/jane doe".data) [] =
      .rewritten ("/user.html?username=jane%20doe".data) := by
  have hcapU1 : capture uPre segOk (("/u/".data) ++ name) = some name :=
    (capture_eq_some_iff (by decide)).mpr ⟨hne, hok, Or.inl rfl⟩
  have hcapU2 : capture uPre segOk (("/u/".data) ++ name ++ ['/']) = some name :=
    (capture_eq_some_iff (by decide)).mpr
      ⟨hne, hok, Or.inr (List.append_assoc uPre name ['/'])⟩
  have hcapC1 : capture cPre segOk (("/c/".data) ++ name) = some name :=
    (capture_eq_some_iff (by decide)).mpr ⟨hne, hok, Or.inl rfl⟩
  have hcapC2 : capture cPre segOk (("/c/".data) ++ name ++ ['/']) = some name :=
    (capture_eq_some_iff (by decide)).mpr
      ⟨hne, hok, Or.inr (List.append_assoc cPre name ['/'])⟩
  have hmU1 : ruleMatches .u (("/u/".data) ++ name) := by
    show (capture uPre segOk (("/u/".data) ++ name)).isSome = true
    rw [hcapU1]; rfl
  have hmU2 : ruleMatches .u (("/u/".data) ++ name ++ ['/']) := by
    show (capture uPre segOk (("/u/".data) ++ name ++ ['/'])).isSome = true
    rw [hcapU2]; rfl
  have hmC1 : ruleMatches .c (("/c/".data) ++ name) := by
    show (capture cPre segOk (("/c/".data) ++ name)).isSome = true
    rw [hcapC1]; rfl
  have hmC2 : ruleMatches .c (("/c/".data) ++ name ++ ['/']) := by
    show (capture cPre segOk (("/c/".data) ++ name ++ ['/'])).isSome = true
    rw [hcapC2]; rfl
  refine ⟨?_, ?_, ?_, ?_, by decide⟩
  · rw [doGET_of_matches hmU1]
    simp only [ruleOutput]
    rw [hcapU1]
    exact congrArg RewriteResult.rewritten (derived_merge_eq ("/user.html?".data) ("username=".data) (quote name) q)
  · rw [doGET_of_matches hmU2]
    simp only [ruleOutput]
    rw [hcapU2]
    exact congrArg RewriteResult.rewritten (derived_merge_eq ("/user.html?".data) ("username=".data) (quote name) q)
  · rw [doGET_of_matches hmC1]
    simp only [ruleOutput]
    rw [hcapC1]
    exact congrArg RewriteResult.rewritten (derived_merge_eq ("/community.html?".data) ("name=".data) (quote name) q)
  · rw [doGET_of_matches hmC2]
    simp only [ruleOutput]
    rw [hcapC2]
    exact congrArg RewriteResult.rewritten (derived_merge_eq ("/community.html?".data) ("name=".data) (quote name) q)

theorem claim_c2_witness :
    (("jane doe".data : List Char) ≠ [] ∧ ("jane doe".data).all segOk = true) ∧
    doGET (("/u/".data) ++ ("jane doe".data)) ("x=1".data) =
      .rewritten (("/user.html?username=".data) ++ quote ("jane doe".data) ++
        (if ("x=1".data : List Char) = [] then [] else '&' :: ("x=1".data))) :=
  ⟨⟨by decide, by decide⟩, (claim_c2 _ _ (by decide) (by decide)).1⟩

/-- C3 as stated is refuted by the root rule: the request `/?a=1` is
successfully rewritten (to `/index.html`), yet the original query `a=1`
does not survive into the destination. -/
theorem claim_c3_counterexample :
    doGET ['/'] ("a=1".data) = .rewritten ("/index.html".data) ∧
    ¬ (("a=1".data) <:+ ("/index.html".data)) :=
  ⟨rfl, by decide⟩

/-- C3 (amended): for every request on which one of the nine pretty-URL
rules fires — the root rule excluded, since it discards the query — a
non-empty original query string is preserved byte-for-byte as the final
segment of the destination, appended after a `?` or (after the derived
parameter) a `&`. -/
theorem claim_c3_amended (path query out : List Char) (hroot : path ≠ ['/'])
    (h : doGET path query = .rewritten out) (hq : query ≠ []) :
    ∃ pre sep, (sep = '?' ∨ sep = '&') ∧ out = pre ++ sep :: query := by
  cases hf : firstMatching path with
  | none =>
    rw [doGET_passthrough_of_none hf query] at h
    exact absurd h (by simp)
  | some r =>
    have hm := first_matches hf
    rw [doGET_of_matches hm] at h
    cases r with
    | communities =>
      have e := RewriteResult.rewritten.inj h
      exact ⟨comDest, '?', Or.inl rfl, by rw [← e]; simp [simpleDest, hq]⟩
    | search =>
      have e := RewriteResult.rewritten.inj h
      exact ⟨searchDest, '?', Or.inl rfl, by rw [← e]; simp [simpleDest, hq]⟩
    | createPost =>
      have e := RewriteResult.rewritten.inj h
      exact ⟨createPostDest, '?', Or.inl rfl, by rw [← e]; simp [simpleDest, hq]⟩
    | createCommunity =>
      have e := RewriteResult.rewritten.inj h
      exact ⟨createCommunityDest, '?', Or.inl rfl, by rw [← e]; simp [simpleDest, hq]⟩
    | inbox =>
      have e := RewriteResult.rewritten.inj h
      exact ⟨inboxDest, '?', Or.inl rfl, by rw [← e]; simp [simpleDest, hq]⟩
    | settings =>
      have e := RewriteResult.rewritten.inj h
      exact ⟨settingsDest, '?', Or.inl rfl, by rw [← e]; simp [simpleDest, hq]⟩
    | post =>
      obtain ⟨d, hd⟩ := Option.isSome_iff_exists.mp hm
      simp only [ruleOutput] at h
      rw [hd] at h
      have e := RewriteResult.rewritten.inj h
      refine ⟨("/post.html?".data) ++ (("id=".data) ++ d), '&', Or.inr rfl, ?_⟩
      rw [← e]
      simp [mergeDerived, hq, List.append_assoc]
    | u =>
      obtain ⟨s, hs⟩ := Option.isSome_iff_exists.mp hm
      simp only [ruleOutput] at h
      rw [hs] at h
      have e := RewriteResult.rewritten.inj h
      refine ⟨("/user.html?".data) ++ (("username=".data) ++ quote s), '&', Or.inr rfl, ?_⟩
      rw [← e]
      simp [mergeDerived, hq, List.append_assoc]
    | c =>
      obtain ⟨s, hs⟩ := Option.isSome_iff_exists.mp hm
      simp only [ruleOutput] at h
      rw [hs] at h
      have e := RewriteResult.rewritten.inj h
      refine ⟨("/community.html?".data) ++ (("name=".data) ++ quote s), '&', Or.inr rfl, ?_⟩
      rw [← e]
      simp [mergeDerived, hq, List.append_assoc]
    | root => exact absurd (show path = ['/'] from hm) hroot

theorem claim_c3_amended_witness :
    (("/post/9".data : List Char) ≠ ['/'] ∧
      doGET ("/post/9".data) ("a=1".data) =
        .rewritten ("/post.html?id=9&a=1".data) ∧
      ("a=1".data : List Char) ≠ []) ∧
    ∃ pre sep, (sep = '?' ∨ sep = '&') ∧
      ("/post.html?id=9&a=1".data : List Char) = pre ++ sep :: ("a=1".data) :=
  ⟨⟨by decide, by decide, by decide⟩,
    claim_c3_amended ("/post/9".data) ("a=1".data) ("/post.html?id=9&a=1".data)
      (by decide) (by decide) (by decide)⟩

/-- C4: a request for the exact path `/` with a non-empty query string is
still rewritten to `/index.html`, and the original query is discarded: the
destination is the constant `/index.html`, independent of the query. -/
theorem claim_c4 (q : List Char) (hq : q ≠ []) :
    doGET ['/'] q = .rewritten ("/index.html".data) := rfl

theorem claim_c4_witness :
    ("a=1".data : List Char) ≠ [] ∧
    doGET ['/'] ("a=1".data) = .rewritten ("/index.html".data) :=
  ⟨by decide, claim_c4 _ (by decide)⟩

/-- C5: re-applying the rewriter to the destination of any successful
rewrite is a no-op: splitting the produced `self.path` back into path and
query at the first `?`, no rule matches the new path and the request falls
through unchanged. -/
theorem claim_c5 (path query out : List Char)
    (h : doGET path query = .rewritten out) :
    doGET (splitQ out).1 (splitQ out).2 = .passthrough := by
  cases hf : firstMatching path with
  | none =>
    rw [doGET_passthrough_of_none hf query] at h
    exact absurd h (by simp)
  | some r =>
    have hm := first_matches hf
    rw [doGET_of_matches hm] at h
    cases r with
    | communities =>
      have e := RewriteResult.rewritten.inj h
      by_cases hq : query = []
      · subst hq; rw [← e]; decide
      · have e2 : out = comDest ++ '?' :: query := by
          rw [← e]; simp [simpleDest, hq]
        rw [e2, splitQ_concat query (by decide)]
        rfl
    | search =>
      have e := RewriteResult.rewritten.inj h
      by_cases hq : query = []
      · subst hq; rw [← e]; decide
      · have e2 : out = searchDest ++ '?' :: query := by
          rw [← e]; simp [simpleDest, hq]
        rw [e2, splitQ_concat query (by decide)]
        rfl
    | createPost =>
      have e := RewriteResult.rewritten.inj h
      by_cases hq : query = []
      · subst hq; rw [← e]; decide
      · have e2 : out = createPostDest ++ '?' :: query := by
          rw [← e]; simp [simpleDest, hq]
        rw [e2, splitQ_concat query (by decide)]
        rfl
    | createCommunity =>
      have e := RewriteResult.rewritten.inj h
      by_cases hq : query = []
      · subst hq; rw [← e]; decide
      · have e2 : out = createCommunityDest ++ '?' :: query := by
          rw [← e]; simp [simpleDest, hq]
        rw [e2, splitQ_concat query (by decide)]
        rfl
    | inbox =>
      have e := RewriteResult.rewritten.inj h
      by_cases hq : query = []
      · subst hq; rw [← e]; decide
      · have e2 : out = inboxDest ++ '?' :: query := by
          rw [← e]; simp [simpleDest, hq]
        rw [e2, splitQ_concat query (by decide)]
        rfl
    | settings =>
      have e := RewriteResult.rewritten.inj h
      by_cases hq : query = []
      · subst hq; rw [← e]; decide
      · have e2 : out = settingsDest ++ '?' :: query := by
          rw [← e]; simp [simpleDest, hq]
        rw [e2, splitQ_concat query (by decide)]
        rfl
    | post =>
      obtain ⟨d, hd⟩ := Option.isSome_iff_exists.mp hm
      simp only [ruleOutput] at h
      rw [hd] at h
      have e := RewriteResult.rewritten.inj h
      have e2 : out = ("/post.html".data) ++ '?' :: mergeDerived (("id=".data) ++ d) query := by
        rw [← e]; exact rfl
      rw [e2, splitQ_concat _ (by decide)]
      rfl
    | u =>
      obtain ⟨s, hs⟩ := Option.isSome_iff_exists.mp hm
      simp only [ruleOutput] at h
      rw [hs] at h
      have e := RewriteResult.rewritten.inj h
      have e2 : out = ("/user.html".data) ++ '?' :: mergeDerived (("username=".data) ++ quote s) query := by
        rw [← e]; exact rfl
      rw [e2, splitQ_concat _ (by decide)]
      rfl
    | c =>
      obtain ⟨s, hs⟩ := Option.isSome_iff_exists.mp hm
      simp only [ruleOutput] at h
      rw [hs] at h
      have e := RewriteResult.rewritten.inj h
      have e2 : out = ("/community.html".data) ++ '?' :: mergeDerived (("name=".data) ++ quote s) query := by
        rw [← e]; exact rfl
      rw [e2, splitQ_concat _ (by decide)]
      rfl
    | root =>
      have e := RewriteResult.rewritten.inj h
      rw [← e]
      decide

theorem claim_c5_witness :
    doGET ("/post/123".data) [] = .rewritten ("/post.html?id=123".data) ∧
    doGET (splitQ ("/post.html?id=123".data)).1
      (splitQ ("/post.html?id=123".data)).2 = .passthrough :=
  ⟨by decide, claim_c5 ("/post/123".data) [] ("/post.html?id=123".data) (by decide)⟩

/-- C6: a path on which none of the nine pretty-URL patterns matches and
which is not exactly `/` (equivalently, no rule of the table matches, the
matching being anchored) passes through unchanged, whatever the query;
in particular `/communities/extra` and `/about` trigger no rewrite. -/
theorem claim_c6 (path query : List Char)
    (h : ∀ r : Rule, ¬ ruleMatches r path) :
    doGET path query = .passthrough :=
  doGET_passthrough_of_none (firstMatching_none h) query

theorem claim_c6_witness :
    (∀ r : Rule, ¬ ruleMatches r ("/communities/extra".data)) ∧
    doGET ("/communities/extra".data) [] = .passthrough ∧
    doGET ("/about".data) ("x=1".data) = .passthrough :=
  ⟨by decide, claim_c6 _ _ (by decide), claim_c6 _ _ (by decide)⟩

/-- C7: for each of the nine pretty-URL rules, a matching path without a
trailing slash and the same path with one trailing slash rewrite to the
identical destination (path and query). -/
theorem claim_c7 (r : Rule) (path query : List Char) (hr : r ≠ Rule.root)
    (h : ruleMatches r path) (hlast : path.getLast? ≠ some '/') :
    doGET (path ++ ['/']) query = doGET path query := by
  cases r with
  | root => exact absurd rfl hr
  | communities =>
    rcases (show slashOpt comLit path from h) with hp | hp
    · subst hp
      rw [doGET_of_matches (show ruleMatches .communities (comLit ++ ['/']) from Or.inr rfl),
        doGET_of_matches (show ruleMatches .communities comLit from Or.inl rfl)]
      rfl
    · exact absurd (by rw [hp]; exact List.getLast?_concat comLit) hlast
  | search =>
    rcases (show slashOpt searchLit path from h) with hp | hp
    · subst hp
      rw [doGET_of_matches (show ruleMatches .search (searchLit ++ ['/']) from Or.inr rfl),
        doGET_of_matches (show ruleMatches .search searchLit from Or.inl rfl)]
      rfl
    · exact absurd (by rw [hp]; exact List.getLast?_concat searchLit) hlast
  | createPost =>
    rcases (show slashOpt createPostLit path from h) with hp | hp
    · subst hp
      rw [doGET_of_matches (show ruleMatches .createPost (createPostLit ++ ['/']) from Or.inr rfl),
        doGET_of_matches (show ruleMatches .createPost createPostLit from Or.inl rfl)]
      rfl
    · exact absurd (by rw [hp]; exact List.getLast?_concat createPostLit) hlast
  | createCommunity =>
    rcases (show slashOpt createCommunityLit path from h) with hp | hp
    · subst hp
      rw [doGET_of_matches
        (show ruleMatches .createCommunity (createCommunityLit ++ ['/']) from Or.inr rfl),
        doGET_of_matches (show ruleMatches .createCommunity createCommunityLit from Or.inl rfl)]
      rfl
    · exact absurd (by rw [hp]; exact List.getLast?_concat createCommunityLit) hlast
  | inbox =>
    rcases (show slashOpt inboxLit path from h) with hp | hp
    · subst hp
      rw [doGET_of_matches (show ruleMatches .inbox (inboxLit ++ ['/']) from Or.inr rfl),
        doGET_of_matches (show ruleMatches .inbox inboxLit from Or.inl rfl)]
      rfl
    · exact absurd (by rw [hp]; exact List.getLast?_concat inboxLit) hlast
  | settings =>
    rcases (show slashOpt settingsLit path from h) with hp | hp
    · subst hp
      rw [doGET_of_matches (show ruleMatches .settings (settingsLit ++ ['/']) from Or.inr rfl),
        doGET_of_matches (show ruleMatches .settings settingsLit from Or.inl rfl)]
      rfl
    · exact absurd (by rw [hp]; exact List.getLast?_concat settingsLit) hlast
  | post =>
    obtain ⟨d, hd⟩ := Option.isSome_iff_exists.mp h
    obtain ⟨hne, hall, hp⟩ := (capture_eq_some_iff (by decide)).mp hd
    rcases hp with hp | hp
    · subst hp
      have hd2 : capture postPre Char.isDigit ((postPre ++ d) ++ ['/']) = some d :=
        (capture_eq_some_iff (by decide)).mpr
          ⟨hne, hall, Or.inr (List.append_assoc postPre d ['/'])⟩
      have hm2 : ruleMatches Rule.post ((postPre ++ d) ++ ['/']) := by
        show (capture postPre Char.isDigit ((postPre ++ d) ++ ['/'])).isSome = true
        rw [hd2]; rfl
      rw [doGET_of_matches hm2, doGET_of_matches h]
      simp only [ruleOutput]
      rw [hd2, hd]
    · exact absurd
        (by rw [hp, ← List.append_assoc]; exact List.getLast?_concat (postPre ++ d)) hlast
  | u =>
    obtain ⟨s, hs⟩ := Option.isSome_iff_exists.mp h
    obtain ⟨hne, hall, hp⟩ := (capture_eq_some_iff (by decide)).mp hs
    rcases hp with hp | hp
    · subst hp
      have hs2 : capture uPre segOk ((uPre ++ s) ++ ['/']) = some s :=
        (capture_eq_some_iff (by decide)).mpr
          ⟨hne, hall, Or.inr (List.append_assoc uPre s ['/'])⟩
      have hm2 : ruleMatches Rule.u ((uPre ++ s) ++ ['/']) := by
        show (capture uPre segOk ((uPre ++ s) ++ ['/'])).isSome = true
        rw [hs2]; rfl
      rw [doGET_of_matches hm2, doGET_of_matches h]
      simp only [ruleOutput]
      rw [hs2, hs]
    · exact absurd
        (by rw [hp, ← List.append_assoc]; exact List.getLast?_concat (uPre ++ s)) hlast
  | c =>
    obtain ⟨s, hs⟩ := Option.isSome_iff_exists.mp h
    obtain ⟨hne, hall, hp⟩ := (capture_eq_some_iff (by decide)).mp hs
    rcases hp with hp | hp
    · subst hp
      have hs2 : capture cPre segOk ((cPre ++ s) ++ ['/']) = some s :=
        (capture_eq_some_iff (by decide)).mpr
          ⟨hne, hall, Or.inr (List.append_assoc cPre s ['/'])⟩
      have hm2 : ruleMatches Rule.c ((cPre ++ s) ++ ['/']) := by
        show (capture cPre segOk ((cPre ++ s) ++ ['/'])).isSome = true
        rw [hs2]; rfl
      rw [doGET_of_matches hm2, doGET_of_matches h]
      simp only [ruleOutput]
      rw [hs2, hs]
    · exact absurd
        (by rw [hp, ← List.append_assoc]; exact List.getLast?_concat (cPre ++ s)) hlast

theorem claim_c7_witness :
    (Rule.communities ≠ Rule.root ∧
      ruleMatches Rule.communities ("/communities".data) ∧
      ("/communities".data : List Char).getLast? ≠ some '/') ∧
    doGET (("/communities".data) ++ ['/']) ("x=1".data) =
      doGET ("/communities".data) ("x=1".data) :=
  ⟨⟨by decide, by decide, by decide⟩,
    claim_c7 Rule.communities ("/communities".data) ("x=1".data)
      (by decide) (by decide) (by decide)⟩

/-- C8: the rule patterns are pairwise disjoint — at most one rule matches
any path — and the first-match-wins evaluation of `do_GET` applies exactly the
unique matching rule. -/
theorem claim_c8 (path query : List Char) (r1 r2 : Rule)
    (h1 : ruleMatches r1 path) (h2 : ruleMatches r2 path) :
    r1 = r2 ∧ doGET path query = ruleOutput r1 path query :=
  ⟨matches_unique h1 h2, doGET_of_matches h1⟩

theorem claim_c8_witness :
    (ruleMatches Rule.post ("/post/7".data) ∧
      ruleMatches Rule.post ("/post/7".data)) ∧
    (Rule.post = Rule.post ∧
      doGET ("/post/7".data) ("x=1".data) =
        ruleOutput Rule.post ("/post/7".data) ("x=1".data)) :=
  ⟨⟨by decide, by decide⟩, claim_c8 _ _ _ _ (by decide) (by decide)⟩

/-- C9: a present but non-integer first argument makes startup print the
invalid-port warning and keep the default port 8000, while an absent
argument keeps port 8000 with no warning. -/
theorem claim_c9 (argv0 a : List Char) (rest : List (List Char))
    (h : pyIntParse a = none) :
    mainPort (argv0 :: a :: rest) = (8000, true) ∧
    mainPort [argv0] = (8000, false) := by
  refine ⟨?_, rfl⟩
  simp only [mainPort]
  rw [h]

theorem claim_c9_witness :
    pyIntParse ("abc".data) = none ∧
    (mainPort [("srv".data), ("abc".data)] = (8000, true) ∧
      mainPort [("srv".data)] = (8000, false)) :=
  ⟨by decide, claim_c9 _ _ _ (by decide)⟩

/-- C10: every response carries the three permissive cross-origin headers,
appended unconditionally after whatever headers the file delegate queued,
regardless of path, rewrite outcome or status. -/
theorem claim_c10 (sent : List (List Char × List Char)) :
    endHeaders sent = sent ++ corsHeaders ∧
    (("Access-Control-Allow-Origin".data), ("*".data)) ∈ endHeaders sent ∧
    (("Access-Control-Allow-Methods".data), ("GET, POST, OPTIONS".data)) ∈ endHeaders sent ∧
    (("Access-Control-Allow-Headers".data), ("*".data)) ∈ endHeaders sent := by
  refine ⟨rfl, ?_, ?_, ?_⟩ <;> simp [endHeaders, corsHeaders]

end DevServer
